import Mathlib

/-!
Verification of the rerouter cloaking reverse-proxy against its
natural-language specification.

Bodies, hosts and URLs are modelled as lists of characters (Go operates on
byte strings; all hosts and markers involved are ASCII, so characters and
bytes coincide for every boundary decision made by the code). Stateful Go
code is embedded as pure functions: the filesystem becomes an explicit map,
HTTP fetches become environment-supplied responses, and the bounded loops of
the source become fuel-indexed structural recursions where the fuel chosen
by the wrappers matches the number of iterations the Go loop can perform.
-/

/-! ## Rewrite Engine (rewrite.go) -/

/-- Character class used by the bare host-literal pass: letters, digits,
dash, dot and colon can be part of a hostname (rewrite.go, isHostChar). -/
def isHostChar (c : Char) : Bool :=
  ('a' ≤ c && c ≤ 'z') || ('A' ≤ c && c ≤ 'Z') || ('0' ≤ c && c ≤ '9') ||
    c == '-' || c == '.' || c == ':'

/-- hostBoundaryBefore from rewrite.go: position 0 is a boundary, otherwise
the previous character must not be a hostname character. -/
def hostBoundaryBefore (s : List Char) (idx : Nat) : Bool :=
  if idx = 0 then true else !(isHostChar (s.getD (idx - 1) ' '))

/-- hostBoundaryAfter from rewrite.go: the end of the string is a boundary,
otherwise the character at idx must not be a hostname character. -/
def hostBoundaryAfter (s : List Char) (idx : Nat) : Bool :=
  if s.length ≤ idx then true else !(isHostChar (s.getD idx ' '))

/-- occursAt old s i holds when old appears in s starting at index i
(strings.Index finding an occurrence at i). -/
def occursAt (old s : List Char) (i : Nat) : Bool :=
  old.isPrefixOf (s.drop i)

/-- Scanning loop of replaceHostLiteral (rewrite.go). The Go loop walks the
string left to right: at a boundary-valid occurrence of old it emits repl and
jumps past the match; otherwise it advances one character. The fuel argument
is the loop bound; the wrapper passes the string length, which dominates the
number of iterations because each step advances the index by at least one. -/
def replaceHostLiteralAux (s old repl : List Char) : Nat → Nat → List Char × Bool
  | _, 0 => ([], false)
  | i, fuel + 1 =>
    if i < s.length then
      if !old.isEmpty && occursAt old s i && hostBoundaryBefore s i &&
          hostBoundaryAfter s (i + old.length) then
        let rest := replaceHostLiteralAux s old repl (i + old.length) fuel
        (repl ++ rest.1, true)
      else
        let rest := replaceHostLiteralAux s old repl (i + 1) fuel
        (s.getD i ' ' :: rest.1, rest.2)
    else ([], false)

/-- replaceHostLiteral from rewrite.go: swaps bare host occurrences when they
are not part of a larger hostname; returns the original string and false when
old is empty, equals repl, or nothing was replaced. -/
def replaceHostLiteral (s old repl : List Char) : List Char × Bool :=
  if old.isEmpty || old == repl then (s, false)
  else
    let r := replaceHostLiteralAux s old repl 0 s.length
    if r.2 then (r.1, true) else (s, false)

lemma replaceHostLiteralAux_no_valid (s old repl : List Char)
    (h : ∀ i, i < s.length → occursAt old s i = true →
      ¬(hostBoundaryBefore s i = true ∧
        hostBoundaryAfter s (i + old.length) = true)) :
    ∀ fuel i, s.length ≤ i + fuel →
      replaceHostLiteralAux s old repl i fuel = (s.drop i, false) := by
  intro fuel
  induction fuel with
  | zero =>
    intro i hi
    simp only [Nat.add_zero] at hi
    simp [replaceHostLiteralAux, List.drop_eq_nil_of_le hi]
  | succ n ih =>
    intro i hi
    by_cases hlt : i < s.length
    · have hcond : (!old.isEmpty && occursAt old s i && hostBoundaryBefore s i &&
          hostBoundaryAfter s (i + old.length)) = false := by
        by_contra hne
        have htrue : (!old.isEmpty && occursAt old s i && hostBoundaryBefore s i &&
            hostBoundaryAfter s (i + old.length)) = true := by
          revert hne
          cases (!old.isEmpty && occursAt old s i && hostBoundaryBefore s i &&
            hostBoundaryAfter s (i + old.length)) <;> simp
        simp only [Bool.and_eq_true] at htrue
        exact h i hlt htrue.1.1.2 ⟨htrue.1.2, htrue.2⟩
      have hrec := ih (i + 1) (by omega)
      simp only [replaceHostLiteralAux, if_pos hlt, hcond, Bool.false_eq_true,
        if_false, hrec]
      have hdrop : s.drop i = s.get ⟨i, hlt⟩ :: s.drop (i + 1) :=
        List.drop_eq_getElem_cons hlt
      have hgetD : s.getD i ' ' = s.get ⟨i, hlt⟩ := by
        simp [List.getD, List.getElem?_eq_getElem hlt, List.get_eq_getElem]
      rw [hgetD, ← hdrop]
    · have hge : s.length ≤ i := Nat.le_of_not_lt hlt
      simp [replaceHostLiteralAux, hlt, List.drop_eq_nil_of_le hge]

lemma replaceHostLiteral_no_valid (s old repl : List Char)
    (h : ∀ i, i < s.length → occursAt old s i = true →
      ¬(hostBoundaryBefore s i = true ∧
        hostBoundaryAfter s (i + old.length) = true)) :
    replaceHostLiteral s old repl = (s, false) := by
  unfold replaceHostLiteral
  by_cases hg : (old.isEmpty || old == repl) = true
  · simp [hg]
  · have hb : (old.isEmpty || old == repl) = false := by
      revert hg; cases (old.isEmpty || old == repl) <;> simp
    have haux := replaceHostLiteralAux_no_valid s old repl h s.length 0 (by omega)
    simp [hb, haux]

/-- Claim C1: the bare host-literal pass replaces an occurrence of the
upstream host only when both flanking characters are not hostname
characters. First conjunct: if no occurrence of old in s is flanked by
non-host characters on both sides, the pass returns the body byte-identical
with rewrote = false. The remaining conjuncts instantiate the claim for host
upstream.example: bodies containing only sub.upstream.example or
xupstream.example are unchanged with rewrote = false, while a body in which
every occurrence is flanked by non-host characters (quote, space, comma,
semicolon) has every occurrence replaced by the proxy host. -/
theorem C1_bare_host_literal_boundary :
    (∀ s old repl : List Char,
      (∀ i, i < s.length → occursAt old s i = true →
        ¬(hostBoundaryBefore s i = true ∧
          hostBoundaryAfter s (i + old.length) = true)) →
      replaceHostLiteral s old repl = (s, false))
    ∧ replaceHostLiteral "see sub.upstream.example here".toList
        "upstream.example".toList "proxy.example".toList =
        ("see sub.upstream.example here".toList, false)
    ∧ replaceHostLiteral "xupstream.example".toList
        "upstream.example".toList "proxy.example".toList =
        ("xupstream.example".toList, false)
    ∧ replaceHostLiteral "\"upstream.example\" upstream.example,upstream.example;".toList
        "upstream.example".toList "proxy.example".toList =
        ("\"proxy.example\" proxy.example,proxy.example;".toList, true) := by
  refine ⟨replaceHostLiteral_no_valid, ?_, ?_, ?_⟩ <;> decide

/-- Witness for the universally quantified conjunct of C1 at a concrete
body whose only occurrence of the host is preceded by a hostname character. -/
theorem C1_bare_host_literal_boundary_witness :
    replaceHostLiteral "xupstream.example".toList "upstream.example".toList
      "proxy.example".toList = ("xupstream.example".toList, false) :=
  C1_bare_host_literal_boundary.1 "xupstream.example".toList
    "upstream.example".toList "proxy.example".toList (by decide)

/-- strings.Contains: pat occurs somewhere in s. -/
def containsSub : List Char → List Char → Bool
  | [], pat => pat.isEmpty
  | c :: t, pat => pat.isPrefixOf (c :: t) || containsSub t pat

/-- strings.ReplaceAll scanning loop: replaces each leftmost occurrence of
old and continues after the replacement (never rescanning emitted text).
The fuel is the iteration bound; the wrapper passes the string length, which
dominates the iteration count since every step consumes at least one
character of the input when old is nonempty. -/
def replaceAllAux (old new : List Char) : Nat → List Char → List Char
  | 0, s => s
  | fuel + 1, s =>
    if !old.isEmpty && old.isPrefixOf s then
      new ++ replaceAllAux old new fuel (s.drop old.length)
    else
      match s with
      | [] => []
      | c :: t => c :: replaceAllAux old new fuel t

/-- strings.ReplaceAll(s, old, new) for nonempty old. -/
def goReplaceAll (s old new : List Char) : List Char :=
  replaceAllAux old new s.length s

/-- rewriteBToA from rewrite.go: the four literal passes (full upstream
origin, protocol-relative form, explicit http and https forms) followed by
the bare host-literal pass, each contributing to the rewrote flag; the
original body is returned when no pass fired. The base URLs appear through
their scheme and host components, the only fields the source reads. -/
def rewriteBToA (body : List Char) (aScheme aHost bScheme bHost : List Char) :
    List Char × Bool :=
  let aAbs := aScheme ++ "://".toList ++ aHost
  let bAbs := bScheme ++ "://".toList ++ bHost
  let c1 := containsSub body bAbs
  let s1 := if c1 then goReplaceAll body bAbs aAbs else body
  let c2 := containsSub s1 ("//".toList ++ bHost)
  let s2 := if c2 then goReplaceAll s1 ("//".toList ++ bHost) ("//".toList ++ aHost) else s1
  let c3 := containsSub s2 ("http://".toList ++ bHost)
  let s3 := if c3 then goReplaceAll s2 ("http://".toList ++ bHost) aAbs else s2
  let c4 := containsSub s3 ("https://".toList ++ bHost)
  let s4 := if c4 then goReplaceAll s3 ("https://".toList ++ bHost) aAbs else s3
  let r5 := replaceHostLiteral s4 bHost aHost
  let s5 := if r5.2 then r5.1 else s4
  if c1 || c2 || c3 || c4 || r5.2 then (s5, true) else (body, false)

lemma rewriteBToA_rewrote_of_protocol_relative
    (body aScheme aHost bScheme bHost : List Char)
    (h : containsSub body ("//".toList ++ bHost) = true) :
    (rewriteBToA body aScheme aHost bScheme bHost).2 = true := by
  by_cases hc1 : containsSub body
      (bScheme ++ "://".toList ++ bHost) = true
  · simp only [rewriteBToA, hc1, Bool.true_or]
    simp
  · have hb : containsSub body (bScheme ++ "://".toList ++ bHost) = false := by
      revert hc1
      cases containsSub body (bScheme ++ "://".toList ++ bHost) <;> simp
    simp only [rewriteBToA, hb, Bool.false_eq_true, if_false, h, Bool.false_or,
      Bool.true_or]
    simp

/-- Claim C2 counterexample: with proxy base https a.example and upstream
base https b.example, the occurrence http://b.example keeps its original
http scheme (the protocol-relative pass rewrites its host before the
explicit-scheme pass can see it), so the output differs from the one the
claim predicts, in which every absolute form carries the proxy scheme. -/
theorem C2_scheme_coverage_counterexample :
    rewriteBToA "https://b.example/p http://b.example/p //b.example/p".toList
        "https".toList "a.example".toList "https".toList "b.example".toList =
      ("https://a.example/p http://a.example/p //a.example/p".toList, true)
    ∧ "https://a.example/p http://a.example/p //a.example/p".toList ≠
      "https://a.example/p https://a.example/p //a.example/p".toList := by
  constructor <;> decide

/-- Claim C2 as amended: a body containing the upstream host in the forms
https, http and protocol-relative is rewritten with rewrote = true, and
every such occurrence has its host replaced by the proxy host; an occurrence
whose scheme equals the upstream base scheme becomes the full proxy origin,
while an occurrence with the other scheme keeps its own scheme prefix (only
its host is replaced, by the protocol-relative pass), coinciding with the
proxy origin exactly when that scheme equals the proxy scheme. The first
conjunct proves rewrote = true for every body containing the
protocol-relative form (hence any of the three forms, all of which contain
it); the other conjuncts compute both scheme configurations. -/
theorem C2_scheme_coverage_amended :
    (∀ body aScheme aHost bScheme bHost : List Char,
      containsSub body ("//".toList ++ bHost) = true →
      (rewriteBToA body aScheme aHost bScheme bHost).2 = true)
    ∧ rewriteBToA "https://b.example/p http://b.example/p //b.example/p".toList
        "http".toList "a.example".toList "https".toList "b.example".toList =
      ("http://a.example/p http://a.example/p //a.example/p".toList, true)
    ∧ rewriteBToA "https://b.example/p http://b.example/p //b.example/p".toList
        "https".toList "a.example".toList "https".toList "b.example".toList =
      ("https://a.example/p http://a.example/p //a.example/p".toList, true) := by
  refine ⟨rewriteBToA_rewrote_of_protocol_relative, ?_, ?_⟩ <;> decide

/-- Witness for the universally quantified conjunct of the amended C2. -/
theorem C2_scheme_coverage_amended_witness :
    (rewriteBToA "a //b.example b".toList "https".toList "a.example".toList
      "https".toList "b.example".toList).2 = true :=
  C2_scheme_coverage_amended.1 "a //b.example b".toList "https".toList
    "a.example".toList "https".toList "b.example".toList (by decide)

/-! ## Content-type gate and body rewriting for bots (rewrite.go) -/

/-- strings.ToLower, character-wise. -/
def toLowerList (s : List Char) : List Char := s.map Char.toLower

/-- rewriteBodyForBots from rewrite.go: only bodies whose lowered content type
mentions text/html, application/xhtml or xml are rewritten; everything else
passes through untouched with rewrote = false. -/
def rewriteBodyForBots (body contentType : List Char)
    (aScheme aHost bScheme bHost : List Char) : List Char × Bool :=
  let ct := toLowerList contentType
  if containsSub ct "text/html".toList || containsSub ct "application/xhtml".toList ||
      containsSub ct "xml".toList then
    rewriteBToA body aScheme aHost bScheme bHost
  else (body, false)

/-! ## Cache entries and the Prefetcher (cache.go, the Prefetcher file) -/

/-- The minimal allow-listed header subset a cache entry stores. A missing
key of the Go string map is modelled as none. -/
structure HeaderMapM where
  contentType : Option (List Char)
  lastModified : Option (List Char)
  etag : Option (List Char)
deriving DecidableEq

/-- cacheEntry from cache.go (timestamps in seconds; the JSON round trip of
the Go store is modelled as the identity on this record). -/
structure CacheEntryM where
  url : List Char
  createdAt : Int
  expiresAt : Int
  status : Nat
  header : HeaderMapM
  body : List Char
deriving DecidableEq

/-- An upstream HTTP response as the handlers observe it. -/
structure UpstreamResp where
  status : Nat
  contentType : Option (List Char)
  lastModified : Option (List Char)
  etag : Option (List Char)
  body : List Char
deriving DecidableEq

/-- Reading an absent key of a Go string map yields the empty string. -/
def getOrEmpty : Option (List Char) → List Char
  | some s => s
  | none => []

/-- The header map the handlers build from an upstream response (the three
allow-listed keys, each present only when the response carries it). -/
def respHeaders (resp : UpstreamResp) : HeaderMapM :=
  ⟨resp.contentType, resp.lastModified, resp.etag⟩

/-- delete(ch, "ETag"); delete(ch, "Last-Modified"). -/
def dropValidators (h : HeaderMapM) : HeaderMapM :=
  { h with lastModified := none, etag := none }

/-- Environment of one Prefetcher handle call: the outcome of the initial
cache read, the upstream response (none is a transport failure), the clock
and the TTL computed for the target path. -/
structure PrefetchEnv where
  cached : Option CacheEntryM
  resp : Option UpstreamResp
  now : Int
  ttl : Int

/-- The optional rewrite step of the Prefetcher handle: only performed when
an aBase override was supplied (and parsed), via rewriteBodyForBots. -/
def prefetchRewrite (resp : UpstreamResp) (aBase : Option (List Char × List Char))
    (bScheme bHost : List Char) : List Char × Bool :=
  match aBase with
  | some ab => rewriteBodyForBots resp.body (getOrEmpty resp.contentType)
      ab.1 ab.2 bScheme bHost
  | none => (resp.body, false)

/-- Observable outcome of a Prefetcher call: the returned success flag and
error presence, the entry written to the cache store (none when nothing was
persisted), and whether an HTTP fetch was issued. -/
structure HandleOut where
  ok : Bool
  isErr : Bool
  store : Option CacheEntryM
  didFetch : Bool
deriving DecidableEq

/-- handle from the Prefetcher: fresh 200 cache entry short-circuits with
success; a transport failure reports an error without persisting; otherwise
the body is optionally rewritten, validators are dropped when the rewrite
fired, and an entry is persisted only for a 200 status (with failure
reported for any other status). -/
def prefetcherHandle (env : PrefetchEnv) (aBase : Option (List Char × List Char))
    (bScheme bHost target : List Char) : HandleOut :=
  if env.cached.map (fun ce => ce.status) = some 200 then ⟨true, false, none, false⟩
  else
    match env.resp with
    | none => ⟨false, true, none, true⟩
    | some resp =>
      let rw := prefetchRewrite resp aBase bScheme bHost
      let ch := if rw.2 then dropValidators (respHeaders resp) else respHeaders resp
      if resp.status = 200 then
        ⟨true, false, some ⟨target, env.now, env.now + env.ttl, resp.status, ch, rw.1⟩, true⟩
      else ⟨false, true, none, true⟩

/-- The rewrite step of the bot-path handler in buildHandler: sitemap paths
force rewriteBToA, all other paths go through the content-type gate. -/
def botRewriteStep (isSitemap : Bool) (resp : UpstreamResp)
    (aScheme aHost bScheme bHost : List Char) : List Char × Bool :=
  if isSitemap then rewriteBToA resp.body aScheme aHost bScheme bHost
  else rewriteBodyForBots resp.body (getOrEmpty resp.contentType) aScheme aHost bScheme bHost

/-- Cache write decision of the inline bot-request path of buildHandler:
headers are assembled from the response, body and headers are updated when
the rewrite fired, and an entry is persisted only when the status is 200. -/
def botHandlerStore (isSitemap : Bool) (resp : UpstreamResp)
    (aScheme aHost bScheme bHost : List Char) (now ttl : Int)
    (target : List Char) : Option CacheEntryM :=
  let rw := botRewriteStep isSitemap resp aScheme aHost bScheme bHost
  let body := if rw.2 then rw.1 else resp.body
  let ch := if rw.2 then dropValidators (respHeaders resp) else respHeaders resp
  if resp.status = 200 then some ⟨target, now, now + ttl, resp.status, ch, body⟩
  else none

/-- FetchAndStore from the Prefetcher: an empty target is an error; a target
whose in-flight marker another caller holds reports success immediately
without fetching or writing; otherwise the shared handle logic runs. -/
def fetchAndStore (inFlight : List (List Char)) (env : PrefetchEnv)
    (aBase : Option (List Char × List Char)) (bScheme bHost target : List Char) :
    HandleOut :=
  if target = [] then ⟨false, true, none, false⟩
  else if target ∈ inFlight then ⟨true, false, none, false⟩
  else prefetcherHandle env aBase bScheme bHost target

/-- Claim C3: every cache entry written by the Prefetcher handle or by the
inline bot-request handler has status 200, and whenever the stored body was
rewritten the entry header carries neither Last-Modified nor ETag. -/
theorem C3_store_only_200_and_validator_strip :
    (∀ env aBase bScheme bHost target ce,
      (prefetcherHandle env aBase bScheme bHost target).store = some ce →
      ce.status = 200 ∧
      (∀ resp, env.resp = some resp →
        (prefetchRewrite resp aBase bScheme bHost).2 = true →
        ce.header.lastModified = none ∧ ce.header.etag = none))
    ∧ (∀ sm resp aScheme aHost bScheme bHost now ttl target ce,
      botHandlerStore sm resp aScheme aHost bScheme bHost now ttl target = some ce →
      ce.status = 200 ∧
      ((botRewriteStep sm resp aScheme aHost bScheme bHost).2 = true →
        ce.header.lastModified = none ∧ ce.header.etag = none)) := by
  constructor
  · intro env aBase bScheme bHost target ce h
    simp only [prefetcherHandle] at h
    split at h
    · simp at h
    · split at h
      · simp at h
      · rename_i resp heq
        split at h
        · rename_i hst
          simp only [Option.some.injEq] at h
          subst h
          refine ⟨hst, ?_⟩
          intro resp2 hresp2 hrw
          rw [heq] at hresp2
          cases hresp2
          simp only [hrw, if_true]
          simp [dropValidators]
        · simp at h
  · intro sm resp aScheme aHost bScheme bHost now ttl target ce h
    simp only [botHandlerStore] at h
    split at h
    · rename_i hst
      simp only [Option.some.injEq] at h
      subst h
      refine ⟨hst, ?_⟩
      intro hrw
      simp only [hrw, if_true]
      simp [dropValidators]
    · simp at h

/-- Concrete environment for the C3 witness: a 200 response with both
validators, whose HTML body mentions the upstream host. -/
def c3env : PrefetchEnv :=
  ⟨none,
   some ⟨200, some "text/html".toList, some "lm".toList, some "etag1".toList,
     "see //b.example x".toList⟩,
   0, 60⟩

/-- Entry the Prefetcher persists in the C3 witness scenario. -/
def c3entry : CacheEntryM :=
  ⟨"https://b.example/p".toList, 0, 60, 200,
   ⟨some "text/html".toList, none, none⟩, "see //a.example x".toList⟩

/-- Witness for C3: in a concrete rewriting scenario the Prefetcher persists
exactly a 200 entry without validators. -/
theorem C3_store_only_200_and_validator_strip_witness :
    (prefetcherHandle c3env (some ("https".toList, "a.example".toList))
        "https".toList "b.example".toList "https://b.example/p".toList).store =
      some c3entry
    ∧ c3entry.status = 200 ∧ c3entry.header.lastModified = none
    ∧ c3entry.header.etag = none := by
  have h1 : (prefetcherHandle c3env (some ("https".toList, "a.example".toList))
      "https".toList "b.example".toList "https://b.example/p".toList).store =
      some c3entry := by decide
  have h2 := C3_store_only_200_and_validator_strip.1 c3env
    (some ("https".toList, "a.example".toList)) "https".toList "b.example".toList
    "https://b.example/p".toList c3entry h1
  have h3 := h2.2 _ rfl (by decide)
  exact ⟨h1, h2.1, h3.1, h3.2⟩

/-- Claim C9: for a nonempty target whose in-flight marker another caller
holds, FetchAndStore reports success with no error immediately, performing
neither an HTTP fetch nor a cache write of its own. -/
theorem C9_inflight_marker_short_circuits :
    ∀ inFlight env aBase bScheme bHost (target : List Char),
      target ≠ [] → target ∈ inFlight →
      fetchAndStore inFlight env aBase bScheme bHost target =
        ⟨true, false, none, false⟩ := by
  intro inFlight env aBase bScheme bHost target hne hmem
  simp [fetchAndStore, hne, hmem]

/-- Witness for C9 at a concrete in-flight target. -/
theorem C9_inflight_marker_short_circuits_witness :
    fetchAndStore ["https://b.example/q".toList] ⟨none, none, 0, 60⟩ none
      "https".toList "b.example".toList "https://b.example/q".toList =
      ⟨true, false, none, false⟩ :=
  C9_inflight_marker_short_circuits ["https://b.example/q".toList]
    ⟨none, none, 0, 60⟩ none "https".toList "b.example".toList
    "https://b.example/q".toList (by decide) (by decide)

/-! ## Cache path derivation and the on-disk store (cache.go) -/

/-- A parsed absolute URL as cacheFilePathForURL consumes it: the host
(port included), the escaped path and the raw query. The call to
net/url Parse in the source is modelled by taking these components as
input; the claims quantify over all component values. -/
structure GoURL where
  host : List Char
  path : List Char
  rawQuery : List Char
deriving DecidableEq

/-- A cleaned filesystem path: rootedness flag plus segment list. Go
manipulates paths as strings through path/filepath Join, which cleans its
result; this record is the cleaned form. -/
structure GoPath where
  abs : Bool
  segs : List (List Char)
deriving DecidableEq

/-- filepath.Join(p, seg) for one slash-free element on an already clean
path, mirroring the Clean semantics of path/filepath: empty elements are
ignored, a dot keeps the path, a dot-dot pops the last ordinary segment
(and is dropped at the root of a rooted path), anything else is appended. -/
def joinSeg (p : GoPath) (seg : List Char) : GoPath :=
  if seg = [] then p
  else if seg = ".".toList then p
  else if seg = "..".toList then
    if p.segs ≠ [] ∧ p.segs.getLast? ≠ some "..".toList then
      { p with segs := p.segs.dropLast }
    else if p.abs then p
    else { p with segs := p.segs ++ ["..".toList] }
  else { p with segs := p.segs ++ [seg] }

/-- strings.Trim(s, "/"): remove leading and trailing slashes. -/
def trimSlashes (s : List Char) : List Char :=
  ((s.dropWhile (fun c => c = '/')).reverse.dropWhile (fun c => c = '/')).reverse

/-- u.RequestURI(): escaped path plus raw query when present. -/
def requestURI (u : GoURL) : List Char :=
  u.path ++ (if u.rawQuery = [] then [] else '?' :: u.rawQuery)

/-- Hexadecimal digit table. -/
def hexDigit (n : Nat) : Char := "0123456789abcdef".toList.getD n '0'

/-- Eight hex characters of a digest. The source uses the first four bytes
of a SHA-1 digest; the digest function itself is a standard-library
primitive, modelled here by a fixed computable digest (no claim depends on
particular digest values, only on the shape of the derived file name). -/
def hash8 (s : List Char) : List Char :=
  let h := s.foldl (fun a c => (a * 131 + c.toNat) % 4294967296) 0
  (List.range 8).map (fun i => hexDigit (h / 16 ^ (7 - i) % 16))

/-- cacheFilePathForURL from cache.go: directory cacheDir/host followed by
the nonempty segments of the slash-trimmed escaped path, with file name
index.json, or index.h8.json for URLs carrying a query, where h8 digests
the full request URI. -/
def cacheFilePathForURL (cacheDir : GoPath) (u : GoURL) : GoPath :=
  let dir0 := joinSeg cacheDir u.host
  let p := trimSlashes u.path
  let dir := (p.splitOn '/').foldl
    (fun d seg => if seg = [] then d else joinSeg d seg) dir0
  let name := if u.rawQuery = [] then "index.json".toList
    else "index.".toList ++ hash8 (requestURI u) ++ ".json".toList
  joinSeg dir name

/-- The cache filesystem: derived path to stored entry. -/
def CacheFS : Type := GoPath → Option CacheEntryM

/-- writeCacheByURL from cache.go: serialize and place the entry at the
derived path (the temp-file-and-rename dance of the source yields exactly
this final state). -/
def writeCacheByURL (fs : CacheFS) (cacheDir : GoPath) (u : GoURL)
    (ce : CacheEntryM) : CacheFS :=
  fun q => if q = cacheFilePathForURL cacheDir u then some ce else fs q

/-- readCacheByURL from cache.go: read the file at the derived path and
report a miss when it is absent or when now is at or past expiresAt. The
source only ever reads the file; it performs no deletion, which is why the
function consumes the filesystem without producing a new one. -/
def readCacheByURL (fs : CacheFS) (now : Int) (cacheDir : GoPath) (u : GoURL) :
    Option CacheEntryM :=
  match fs (cacheFilePathForURL cacheDir u) with
  | none => none
  | some ce => if ce.expiresAt ≤ now then none else some ce

/-- Claim C4: writing an entry and reading the same URL back returns the
stored entry while now is strictly before expiresAt, misses once now is at
or past expiresAt, and in that expired case the file is still present at the
derived path (the read path never deletes; it is a pure observation of the
filesystem by construction, mirroring the read-only source). -/
theorem C4_cache_roundtrip_and_expiry :
    ∀ (fs : CacheFS) (cacheDir : GoPath) (u : GoURL) (ce : CacheEntryM) (now : Int),
      (now < ce.expiresAt →
        readCacheByURL (writeCacheByURL fs cacheDir u ce) now cacheDir u = some ce)
      ∧ (ce.expiresAt ≤ now →
        readCacheByURL (writeCacheByURL fs cacheDir u ce) now cacheDir u = none
        ∧ writeCacheByURL fs cacheDir u ce (cacheFilePathForURL cacheDir u) = some ce) := by
  intro fs cacheDir u ce now
  constructor
  · intro hlt
    have hexp : ¬(ce.expiresAt ≤ now) := by omega
    simp [readCacheByURL, writeCacheByURL, hexp]
  · intro hle
    refine ⟨?_, ?_⟩
    · simp [readCacheByURL, writeCacheByURL, hle]
    · simp [writeCacheByURL]

/-- Empty cache filesystem used by witnesses. -/
def emptyFS : CacheFS := fun _ => none

/-- Concrete cache directory used by witnesses. -/
def c4dir : GoPath := ⟨true, ["cache".toList]⟩

/-- Concrete URL used by the C4 witness. -/
def c4url : GoURL := ⟨"b.example".toList, "/blog/post".toList, []⟩

/-- Concrete entry used by the C4 witness, expiring at time 100. -/
def c4entry : CacheEntryM :=
  ⟨"https://b.example/blog/post".toList, 40, 100, 200,
   ⟨some "text/html".toList, none, none⟩, "hello".toList⟩

/-- Witness for C4: the round trip succeeds at time 50, misses at time 100,
and the file is still present after expiry. -/
theorem C4_cache_roundtrip_and_expiry_witness :
    readCacheByURL (writeCacheByURL emptyFS c4dir c4url c4entry) 50 c4dir c4url =
      some c4entry
    ∧ readCacheByURL (writeCacheByURL emptyFS c4dir c4url c4entry) 100 c4dir c4url =
      none
    ∧ writeCacheByURL emptyFS c4dir c4url c4entry (cacheFilePathForURL c4dir c4url) =
      some c4entry := by
  have h1 := (C4_cache_roundtrip_and_expiry emptyFS c4dir c4url c4entry 50).1
    (by decide)
  have h2 := (C4_cache_roundtrip_and_expiry emptyFS c4dir c4url c4entry 100).2
    (by decide)
  exact ⟨h1, h2.1, h2.2⟩

/-- Containment of one path in another: same rootedness and the root
segments are an initial segment of the derived path. -/
def pathWithin (root p : GoPath) : Prop :=
  root.abs = p.abs ∧ root.segs <+: p.segs

/-- Claim C10 counterexample: the URL https with host h and escaped path
/../../x is parseable, yet its derived cache path climbs out of the cache
root, because filepath.Join resolves the dot-dot segments lexically. The
derived path is /x/index.json, which does not lie within /cache. -/
theorem C10_path_escape_counterexample :
    ¬ pathWithin ⟨true, ["cache".toList]⟩
      (cacheFilePathForURL ⟨true, ["cache".toList]⟩
        ⟨"h".toList, "/../../x".toList, []⟩) := by
  unfold pathWithin
  decide

lemma joinSeg_extends (p : GoPath) (seg : List Char) (h : seg ≠ "..".toList) :
    (joinSeg p seg).abs = p.abs ∧ p.segs <+: (joinSeg p seg).segs := by
  unfold joinSeg
  by_cases h0 : seg = []
  · rw [if_pos h0]
    exact ⟨rfl, List.prefix_refl _⟩
  · rw [if_neg h0]
    by_cases h1 : seg = ".".toList
    · rw [if_pos h1]
      exact ⟨rfl, List.prefix_refl _⟩
    · rw [if_neg h1, if_neg h]
      exact ⟨rfl, ⟨[seg], rfl⟩⟩

lemma foldl_joinSeg_extends (segs : List (List Char)) :
    ∀ d : GoPath, (∀ seg ∈ segs, seg ≠ "..".toList) →
      (segs.foldl (fun d seg => if seg = [] then d else joinSeg d seg) d).abs = d.abs
      ∧ d.segs <+: (segs.foldl (fun d seg => if seg = [] then d else joinSeg d seg) d).segs := by
  induction segs with
  | nil => intro d _; exact ⟨rfl, List.prefix_refl _⟩
  | cons s rest ih =>
    intro d hall
    have hs : s ≠ "..".toList := hall s (List.mem_cons_self s rest)
    have hrest : ∀ seg ∈ rest, seg ≠ "..".toList := fun seg hm =>
      hall seg (List.mem_cons_of_mem s hm)
    by_cases h0 : s = []
    · simpa [List.foldl_cons, h0] using ih d hrest
    · have hstep := joinSeg_extends d s hs
      have htail := ih (joinSeg d s) hrest
      refine ⟨?_, ?_⟩
      · simp only [List.foldl_cons, h0, if_false]
        rw [htail.1, hstep.1]
      · simp only [List.foldl_cons, h0, if_false]
        exact hstep.2.trans htail.2

/-- Claim C10 as amended: the derived cache file path stays within the cache
root provided the URL host is not the dot-dot segment and no segment of the
slash-trimmed escaped path is dot-dot; without that proviso a dot-dot
segment escapes the root (see the counterexample). -/
theorem C10_path_containment_amended :
    ∀ (cacheDir : GoPath) (u : GoURL),
      u.host ≠ "..".toList →
      (∀ seg ∈ (trimSlashes u.path).splitOn '/', seg ≠ "..".toList) →
      pathWithin cacheDir (cacheFilePathForURL cacheDir u) := by
  intro cacheDir u hhost hsegs
  unfold cacheFilePathForURL pathWithin
  have h0 := joinSeg_extends cacheDir u.host hhost
  have h1 := foldl_joinSeg_extends ((trimSlashes u.path).splitOn '/')
    (joinSeg cacheDir u.host) hsegs
  have hname : (if u.rawQuery = [] then "index.json".toList
      else "index.".toList ++ hash8 (requestURI u) ++ ".json".toList) ≠ "..".toList := by
    by_cases hq : u.rawQuery = []
    · simp [hq]
    · simp only [hq, if_false]
      intro hcontra
      have hlen := congrArg List.length hcontra
      simp [hash8] at hlen
  have h2 := joinSeg_extends
    (((trimSlashes u.path).splitOn '/').foldl
      (fun d seg => if seg = [] then d else joinSeg d seg) (joinSeg cacheDir u.host))
    _ hname
  refine ⟨?_, ?_⟩
  · rw [h2.1, h1.1, h0.1]
  · exact (h0.2.trans h1.2).trans h2.2

/-- Witness for the amended C10 at a concrete well-behaved URL. -/
theorem C10_path_containment_amended_witness :
    pathWithin c4dir (cacheFilePathForURL c4dir c4url) :=
  C10_path_containment_amended c4dir c4url (by decide) (by decide)

/-! ## Sitemap Collector (the sitemap file of part_001) -/

/-- strings.TrimSpace. -/
def trimSpace (s : List Char) : List Char :=
  ((s.dropWhile Char.isWhitespace).reverse.dropWhile Char.isWhitespace).reverse

/-- Everything before the first hash: setting the Fragment of a resolved URL
to the empty string before rendering it. -/
def stripFragment (s : List Char) : List Char :=
  s.takeWhile (fun c => c ≠ '#')

/-- Split s at the leftmost occurrence of pat, returning the pieces before
and after it. -/
def splitOnSub : List Char → List Char → Option (List Char × List Char)
  | s, pat =>
    if pat.isPrefixOf s then some ([], s.drop pat.length)
    else
      match s with
      | [] => none
      | c :: t =>
        match splitOnSub t pat with
        | some p => some (c :: p.1, p.2)
        | none => none

/-- Scheme and remainder of an absolute URL string. -/
def schemeSplit (s : List Char) : Option (List Char × List Char) :=
  splitOnSub s "://".toList

/-- resolveSitemapLocation from the source: trim the reference, resolve it
against the base document URL and strip the fragment. The source delegates
resolution to net/url ResolveReference; it is modelled here for the cases
arising in sitemaps: absolute references, root-relative references, and
relative references without dot segments resolved against the base
directory. -/
def resolveSitemapLocation (base ref0 : List Char) : List Char :=
  let ref := trimSpace ref0
  let resolved :=
    if containsSub ref "://".toList then ref
    else
      match schemeSplit base with
      | none => ref
      | some sr =>
        let host := sr.2.takeWhile (fun c => c ≠ '/')
        let path := sr.2.dropWhile (fun c => c ≠ '/')
        if ref.head? = some '/' then sr.1 ++ "://".toList ++ host ++ ref
        else
          let dir := (path.reverse.dropWhile (fun c => c ≠ '/')).reverse
          sr.1 ++ "://".toList ++ host ++ (if dir = [] then ['/'] else dir) ++ ref
  stripFragment resolved

/-- A fetched sitemap document after XML classification: a urlset leaf or a
sitemap index. The source tries the urlset shape first and requires at least
one entry, then the index shape with at least one entry; fetch failures,
empty bodies and documents fitting neither shape all abort the walk with an
error and are modelled as a failing fetch (none). -/
inductive SitemapDoc where
  | urlset (locs : List (List Char))
  | index (locs : List (List Char))

/-- The network as the collector sees it: sitemap URL to classified
document. -/
structure SitemapEnv where
  fetch : List Char → Option SitemapDoc

/-- Mutable state of the recursive walk: the cycle-guard visited set, the
global seen set and the collected URL list (sets are kept as lists, most
recent first, matching insertion into a Go map). -/
structure WalkState where
  visited : List (List Char)
  seen : List (List Char)
  urls : List (List Char)
deriving DecidableEq

/-- Outcome of the walk: normal return, the limit-reached sentinel error, a
propagated failure, or fuel exhaustion (an artifact of the embedding; the
wrappers below always provide enough fuel for the graphs they visit). -/
inductive WalkOut where
  | done (st : WalkState)
  | limit (st : WalkState)
  | fail
  | fuelOut
deriving DecidableEq

/-- Leaf loop of the walk: trim each loc, skip empty ones, resolve against
the current document URL, skip already-seen results, append fresh ones and
signal the limit sentinel as soon as the collection reaches m entries. -/
def urlsetFold (base : List Char) (m : Nat) :
    List (List Char) → WalkState → WalkOut
  | [], st => .done st
  | loc :: rest, st =>
    if trimSpace loc = [] then urlsetFold base m rest st
    else
      let resolved := resolveSitemapLocation base (trimSpace loc)
      if resolved ∈ st.seen then urlsetFold base m rest st
      else
        let st' : WalkState :=
          { st with seen := resolved :: st.seen, urls := st.urls ++ [resolved] }
        if m ≤ st'.urls.length then .limit st' else urlsetFold base m rest st'

/-- Branch loop of the walk: resolve each child sitemap location and recurse
through the supplied child walk, propagating sentinel and failure outcomes
and re-checking the limit after each child returns normally. -/
def indexFold (base : List Char) (m : Nat)
    (child : WalkState → List Char → WalkOut) :
    List (List Char) → WalkState → WalkOut
  | [], st => .done st
  | loc :: rest, st =>
    if trimSpace loc = [] then indexFold base m child rest st
    else
      let resolved := resolveSitemapLocation base (trimSpace loc)
      match child st resolved with
      | .done st' =>
        if m ≤ st'.urls.length then .limit st' else indexFold base m child rest st'
      | out => out

/-- Depth-first walk of collectSitemapURLs: the visited set short-circuits
cycles, a fetched urlset runs the leaf loop, a fetched index recurses
through the branch loop. The fuel bounds the recursion depth of the
embedding (the Go recursion is bounded by the visited set on the finite
graphs it can observe). -/
def walkSitemap (env : SitemapEnv) (m : Nat) :
    Nat → WalkState → List Char → WalkOut
  | 0, _, _ => .fuelOut
  | fuel + 1, st, current =>
    if current ∈ st.visited then .done st
    else
      let st1 : WalkState := { st with visited := current :: st.visited }
      match env.fetch current with
      | none => .fail
      | some (.urlset locs) =>
        if locs.isEmpty then .fail else urlsetFold current m locs st1
      | some (.index locs) =>
        if locs.isEmpty then .fail
        else indexFold current m (fun st2 c => walkSitemap env m fuel st2 c) locs st1

/-- Default collection limit (5000). -/
def defaultSitemapURLLimit : Nat := 5000

/-- collectSitemapURLs: non-positive limits fall back to the default, the
walk starts from empty state, the limit sentinel is converted to a nil
error, and failures surface as none. -/
def collectSitemapURLs (env : SitemapEnv) (fuel : Nat) (sitemap : List Char)
    (max : Int) : Option (List (List Char)) :=
  let m : Nat := if max ≤ 0 then defaultSitemapURLLimit else max.toNat
  match walkSitemap env m fuel ⟨[], [], []⟩ sitemap with
  | .done st => some st.urls
  | .limit st => some st.urls
  | .fail => none
  | .fuelOut => none

/-- Bound invariant: normal returns stay strictly below the limit, sentinel
returns carry exactly the limit. -/
def walkBound (m : Nat) : WalkOut → Prop
  | .done st => st.urls.length < m
  | .limit st => st.urls.length = m
  | _ => True

lemma urlsetFold_bound (base : List Char) (m : Nat) :
    ∀ locs st, st.urls.length < m → walkBound m (urlsetFold base m locs st) := by
  intro locs
  induction locs with
  | nil => intro st h; exact h
  | cons loc rest ih =>
    intro st h
    unfold urlsetFold
    by_cases h0 : trimSpace loc = []
    · rw [if_pos h0]; exact ih st h
    · rw [if_neg h0]
      by_cases h1 : resolveSitemapLocation base (trimSpace loc) ∈ st.seen
      · rw [if_pos h1]; exact ih st h
      · rw [if_neg h1]
        by_cases h2 : m ≤ (st.urls ++ [resolveSitemapLocation base (trimSpace loc)]).length
        · rw [if_pos h2]
          show (st.urls ++ [resolveSitemapLocation base (trimSpace loc)]).length = m
          rw [List.length_append] at h2 ⊢
          simp only [List.length_singleton] at h2 ⊢
          omega
        · rw [if_neg h2]
          refine ih _ ?_
          simpa using Nat.lt_of_not_le h2

lemma indexFold_bound (base : List Char) (m : Nat)
    (child : WalkState → List Char → WalkOut)
    (hchild : ∀ st c, st.urls.length < m → walkBound m (child st c)) :
    ∀ locs st, st.urls.length < m → walkBound m (indexFold base m child locs st) := by
  intro locs
  induction locs with
  | nil => intro st h; exact h
  | cons loc rest ih =>
    intro st h
    unfold indexFold
    by_cases h0 : trimSpace loc = []
    · rw [if_pos h0]; exact ih st h
    · rw [if_neg h0]
      have hc := hchild st (resolveSitemapLocation base (trimSpace loc)) h
      cases hout : child st (resolveSitemapLocation base (trimSpace loc)) with
      | done st' =>
        rw [hout] at hc
        have hlt : st'.urls.length < m := hc
        simp only [hout]
        rw [if_neg (by omega : ¬ m ≤ st'.urls.length)]
        exact ih st' hlt
      | limit st' =>
        rw [hout] at hc
        simp only [hout]
        exact hc
      | fail => simp only [hout]; trivial
      | fuelOut => simp only [hout]; trivial

lemma walkSitemap_bound (env : SitemapEnv) (m : Nat) :
    ∀ fuel st current, st.urls.length < m →
      walkBound m (walkSitemap env m fuel st current) := by
  intro fuel
  induction fuel with
  | zero => intro st current _; trivial
  | succ n ih =>
    intro st current h
    unfold walkSitemap
    by_cases hv : current ∈ st.visited
    · rw [if_pos hv]; exact h
    · rw [if_neg hv]
      cases hf : env.fetch current with
      | none => trivial
      | some doc =>
        cases doc with
        | urlset locs =>
          by_cases he : locs.isEmpty
          · simp only [he, if_true]; trivial
          · simp only [he, Bool.false_eq_true, if_false]
            exact urlsetFold_bound current m locs _ h
        | index locs =>
          by_cases he : locs.isEmpty
          · simp only [he, if_true]; trivial
          · simp only [he, Bool.false_eq_true, if_false]
            exact indexFold_bound current m _ (fun st2 c => ih st2 c) locs _ h

/-- Claim C5: a non-positive limit falls back to the default of 5000; when
the walk reaches the limit, collection succeeds (the sentinel is not an
error) and returns exactly the effective limit many URLs. The final
conjunct runs a concrete graph holding three page URLs against limit two
and collects exactly two with success. -/
theorem C5_sitemap_limit_and_default :
    (∀ env fuel root (max : Int), max ≤ 0 →
      collectSitemapURLs env fuel root max = collectSitemapURLs env fuel root 5000)
    ∧ (∀ env fuel root (max : Int) st,
      walkSitemap env (if max ≤ 0 then defaultSitemapURLLimit else max.toNat)
          fuel ⟨[], [], []⟩ root = .limit st →
      collectSitemapURLs env fuel root max = some st.urls
      ∧ st.urls.length = (if max ≤ 0 then defaultSitemapURLLimit else max.toNat))
    := by
  constructor
  · intro env fuel root max hmax
    have h5 : ¬((5000 : Int) ≤ 0) := by decide
    simp only [collectSitemapURLs, if_pos hmax, if_neg h5]
    rfl
  · intro env fuel root max st hw
    have hm : 0 < (if max ≤ 0 then defaultSitemapURLLimit else max.toNat) := by
      by_cases hmx : max ≤ 0
      · simp [hmx, defaultSitemapURLLimit]
      · simp only [hmx, if_false]
        omega
    have hb := walkSitemap_bound env
      (if max ≤ 0 then defaultSitemapURLLimit else max.toNat) fuel ⟨[], [], []⟩ root
      (by simpa using hm)
    rw [hw] at hb
    refine ⟨?_, hb⟩
    simp only [collectSitemapURLs, hw]

/-- Concrete sitemap graph: an index pointing at one relative and one
absolute child, with one duplicate page URL across the children, a relative
loc and a fragment-carrying loc. -/
def exFetch : List Char → Option SitemapDoc := fun u =>
  if u = "https://b.example/index.xml".toList then
    some (.index ["child.xml".toList, "https://b.example/child2.xml".toList])
  else if u = "https://b.example/child.xml".toList then
    some (.urlset ["/p1".toList, "https://b.example/p2#frag".toList])
  else if u = "https://b.example/child2.xml".toList then
    some (.urlset ["https://b.example/p1".toList, "p3".toList])
  else none

/-- Environment wrapping the concrete sitemap graph. -/
def exEnv : SitemapEnv := ⟨exFetch⟩

/-- The state in which the concrete graph hits limit two: both documents
visited, two URLs collected. -/
def exLimitState : WalkState :=
  ⟨["https://b.example/child.xml".toList, "https://b.example/index.xml".toList],
   ["https://b.example/p2".toList, "https://b.example/p1".toList],
   ["https://b.example/p1".toList, "https://b.example/p2".toList]⟩

/-- Witness for C5: the default kicks in for limit -1, and on the concrete
three-URL graph a limit of two collects exactly two URLs with success. -/
theorem C5_sitemap_limit_and_default_witness :
    collectSitemapURLs exEnv 10 "https://b.example/index.xml".toList (-1) =
      collectSitemapURLs exEnv 10 "https://b.example/index.xml".toList 5000
    ∧ collectSitemapURLs exEnv 10 "https://b.example/index.xml".toList 2 =
      some ["https://b.example/p1".toList, "https://b.example/p2".toList]
    ∧ exLimitState.urls.length =
      (if (2 : Int) ≤ 0 then defaultSitemapURLLimit else (2 : Int).toNat) := by
  have h1 := C5_sitemap_limit_and_default.1 exEnv 10
    "https://b.example/index.xml".toList (-1) (by decide)
  have h2 := C5_sitemap_limit_and_default.2 exEnv 10
    "https://b.example/index.xml".toList 2 exLimitState (by decide)
  exact ⟨h1, h2.1, h2.2⟩

/-- Seen-set and collection agree and the collection has no duplicates. -/
def stListWF (st : WalkState) : Prop :=
  st.seen = st.urls.reverse ∧ st.urls.Nodup

/-- The well-formedness carried through every walk outcome with a state. -/
def walkWF : WalkOut → Prop
  | .done st => stListWF st
  | .limit st => stListWF st
  | _ => True

lemma urlsetFold_wf (base : List Char) (m : Nat) :
    ∀ locs st, stListWF st → walkWF (urlsetFold base m locs st) := by
  intro locs
  induction locs with
  | nil => intro st h; exact h
  | cons loc rest ih =>
    intro st h
    unfold urlsetFold
    by_cases h0 : trimSpace loc = []
    · rw [if_pos h0]; exact ih st h
    · rw [if_neg h0]
      by_cases h1 : resolveSitemapLocation base (trimSpace loc) ∈ st.seen
      · rw [if_pos h1]; exact ih st h
      · rw [if_neg h1]
        have hnotin : resolveSitemapLocation base (trimSpace loc) ∉ st.urls := by
          intro hmem
          exact h1 (by rw [h.1]; exact List.mem_reverse.mpr hmem)
        have hwf' : stListWF
            { st with
              seen := resolveSitemapLocation base (trimSpace loc) :: st.seen
              urls := st.urls ++ [resolveSitemapLocation base (trimSpace loc)] } := by
          refine ⟨?_, ?_⟩
          · show resolveSitemapLocation base (trimSpace loc) :: st.seen =
              (st.urls ++ [resolveSitemapLocation base (trimSpace loc)]).reverse
            rw [h.1, List.reverse_append]
            simp
          · show (st.urls ++ [resolveSitemapLocation base (trimSpace loc)]).Nodup
            rw [List.nodup_append]
            refine ⟨h.2, List.nodup_singleton _, ?_⟩
            intro a ha hb
            rw [List.mem_singleton] at hb
            subst hb
            exact hnotin ha
        by_cases h2 : m ≤ (st.urls ++ [resolveSitemapLocation base (trimSpace loc)]).length
        · rw [if_pos h2]; exact hwf'
        · rw [if_neg h2]; exact ih _ hwf'

lemma indexFold_wf (base : List Char) (m : Nat)
    (child : WalkState → List Char → WalkOut)
    (hchild : ∀ st c, stListWF st → walkWF (child st c)) :
    ∀ locs st, stListWF st → walkWF (indexFold base m child locs st) := by
  intro locs
  induction locs with
  | nil => intro st h; exact h
  | cons loc rest ih =>
    intro st h
    unfold indexFold
    by_cases h0 : trimSpace loc = []
    · rw [if_pos h0]; exact ih st h
    · rw [if_neg h0]
      have hc := hchild st (resolveSitemapLocation base (trimSpace loc)) h
      cases hout : child st (resolveSitemapLocation base (trimSpace loc)) with
      | done st' =>
        rw [hout] at hc
        simp only [hout]
        by_cases h2 : m ≤ st'.urls.length
        · rw [if_pos h2]; exact hc
        · rw [if_neg h2]; exact ih st' hc
      | limit st' =>
        rw [hout] at hc
        simp only [hout]
        exact hc
      | fail => simp only [hout]; trivial
      | fuelOut => simp only [hout]; trivial

lemma walkSitemap_wf (env : SitemapEnv) (m : Nat) :
    ∀ fuel st current, stListWF st →
      walkWF (walkSitemap env m fuel st current) := by
  intro fuel
  induction fuel with
  | zero => intro st current _; trivial
  | succ n ih =>
    intro st current h
    unfold walkSitemap
    by_cases hv : current ∈ st.visited
    · rw [if_pos hv]; exact h
    · rw [if_neg hv]
      cases hf : env.fetch current with
      | none => trivial
      | some doc =>
        cases doc with
        | urlset locs =>
          by_cases he : locs.isEmpty
          · simp only [he, if_true]; trivial
          · simp only [he, Bool.false_eq_true, if_false]
            exact urlsetFold_wf current m locs _ h
        | index locs =>
          by_cases he : locs.isEmpty
          · simp only [he, if_true]; trivial
          · simp only [he, Bool.false_eq_true, if_false]
            exact indexFold_wf current m _ (fun st2 c => ih st2 c) locs _ h

/-- Claim C6: the collected list never repeats a URL (the global seen set
filters every resolved, fragment-stripped location already collected), each
loc is resolved against the URL of the document containing it and has its
fragment stripped, and on the concrete graph a page URL reachable from two
sibling sitemaps appears exactly once. -/
theorem C6_collect_exactly_once :
    (∀ env fuel root max urls,
      collectSitemapURLs env fuel root max = some urls → urls.Nodup)
    ∧ resolveSitemapLocation "https://b.example/index.xml".toList
        "child.xml".toList = "https://b.example/child.xml".toList
    ∧ resolveSitemapLocation "https://b.example/child.xml".toList
        "/p1".toList = "https://b.example/p1".toList
    ∧ resolveSitemapLocation "https://b.example/child.xml".toList
        "https://b.example/p2#frag".toList = "https://b.example/p2".toList
    ∧ collectSitemapURLs exEnv 10 "https://b.example/index.xml".toList 10 =
        some ["https://b.example/p1".toList, "https://b.example/p2".toList,
          "https://b.example/p3".toList] := by
  refine ⟨?_, by decide, by decide, by decide, by decide⟩
  intro env fuel root max urls h
  simp only [collectSitemapURLs] at h
  have hwf := walkSitemap_wf env (if max ≤ 0 then defaultSitemapURLLimit else max.toNat)
    fuel ⟨[], [], []⟩ root ⟨rfl, List.nodup_nil⟩
  cases hw : walkSitemap env (if max ≤ 0 then defaultSitemapURLLimit else max.toNat)
      fuel ⟨[], [], []⟩ root with
  | done st =>
    rw [hw] at hwf h
    simp only [Option.some.injEq] at h
    subst h
    exact hwf.2
  | limit st =>
    rw [hw] at hwf h
    simp only [Option.some.injEq] at h
    subst h
    exact hwf.2
  | fail => rw [hw] at h; simp at h
  | fuelOut => rw [hw] at h; simp at h

/-- Witness for C6: the concrete collected list is duplicate-free. -/
theorem C6_collect_exactly_once_witness :
    (["https://b.example/p1".toList, "https://b.example/p2".toList,
      "https://b.example/p3".toList] : List (List Char)).Nodup :=
  C6_collect_exactly_once.1 exEnv 10 "https://b.example/index.xml".toList 10
    _ (by decide)

/-! ## Sitemap Warm Job Manager (the warm manager file of bot_test.go) -/

/-- strings.EqualFold, modelled as case-insensitive comparison through
character lowering (the hosts involved are ASCII). -/
def equalFold (a b : List Char) : Bool :=
  a.map Char.toLower == b.map Char.toLower

/-- A parsed URL as the warm loop uses it: scheme, host, and the rest of
the string (path, query and fragment). -/
structure WURL where
  scheme : List Char
  host : List Char
  tail : List Char
deriving DecidableEq

/-- net/url Parse as the warm loop consumes it: control characters make
parsing fail; a string with the scheme marker splits into scheme, host (up
to the first slash) and tail; a string without the marker parses with empty
scheme and host (a relative reference). Percent-escape validation and
protocol-relative references are not modelled. -/
def parseWURL (s : List Char) : Option WURL :=
  if s.any (fun c => c.toNat < 32 || c.toNat == 127) then none
  else
    match splitOnSub s "://".toList with
    | some p =>
      some ⟨p.1, p.2.takeWhile (fun c => c ≠ '/'), p.2.dropWhile (fun c => c ≠ '/')⟩
    | none => some ⟨[], [], s⟩

/-- u.String(): render the parsed URL back to a string. -/
def urlString (u : WURL) : List Char :=
  if u.scheme = [] ∧ u.host = [] then u.tail
  else u.scheme ++ "://".toList ++ u.host ++ u.tail

/-- Per-URL outcome kinds of a warm job. -/
inductive WarmStatusKind where
  | cached
  | skipped
  | failed
deriving DecidableEq

/-- Per-URL skip and failure reasons of a warm job (rnone for cached). -/
inductive WarmReason where
  | rnone
  | parseError
  | hostMismatch
  | duplicate
  | fetchFailed
deriving DecidableEq

/-- One sitemapWarmURLStatus record. -/
structure WarmURLStatus where
  rawURL : List Char
  url : List Char
  status : WarmStatusKind
  reason : WarmReason
  attempts : Nat
  expectedHost : List Char
  actualHost : List Char
deriving DecidableEq

/-- Environment of one warm job run: the collector outcome (none is a
collection error) and the per-attempt success of the Prefetcher
FetchAndStore for each target. -/
structure WarmEnv where
  collect : Option (List (List Char))
  fetchOK : List Char → Nat → Bool

/-- Loop state of the per-URL iteration, with the fetchCalls instrumentation
recording the host and target of every FetchAndStore invocation the loop
performs. -/
structure WarmLoopState where
  seen : List (List Char)
  processed : Nat
  cached : Nat
  skipped : Nat
  statuses : List WarmURLStatus
  fetchCalls : List (List Char × List Char)

/-- Retry bound of the warm loop (sitemapWarmMaxAttempts). -/
def sitemapWarmMaxAttempts : Nat := 3

/-- Retry loop: attempts numbered from base + 1 while n attempts remain;
returns the number of attempts made and whether one succeeded. -/
def attemptFetch (env : WarmEnv) (target : List Char) : Nat → Nat → Nat × Bool
  | base, 0 => (base, false)
  | base, n + 1 =>
    if env.fetchOK target (base + 1) then (base + 1, true)
    else attemptFetch env target (base + 1) n

/-- Host normalization of the warm loop: a URL without a host receives the
upstream scheme and host. -/
def warmNormalize (bScheme bHost : List Char) (u0 : WURL) : WURL :=
  if u0.host = [] then { u0 with scheme := bScheme, host := bHost } else u0

/-- The fetch target: the normalized URL with its fragment stripped,
rendered back to a string. -/
def warmTarget (bScheme bHost : List Char) (u0 : WURL) : List Char :=
  urlString
    { warmNormalize bScheme bHost u0 with
      tail := stripFragment (warmNormalize bScheme bHost u0).tail }

/-- Fetch-and-record step for a fresh target: up to three FetchAndStore
attempts, a cached record carrying the attempt count on success, a failed
record with reason fetch_failed after exhausting the attempts. -/
def warmFetchStep (env : WarmEnv) (st : WarmLoopState) (loc target fhost : List Char) :
    WarmLoopState :=
  if (attemptFetch env target 0 sitemapWarmMaxAttempts).2 then
    { st with
      seen := target :: st.seen
      processed := st.processed + 1
      cached := st.cached + 1
      statuses := st.statuses ++
        [⟨loc, target, .cached, .rnone, (attemptFetch env target 0 sitemapWarmMaxAttempts).1, [], []⟩]
      fetchCalls := st.fetchCalls ++
        List.replicate (attemptFetch env target 0 sitemapWarmMaxAttempts).1 (fhost, target) }
  else
    { st with
      seen := target :: st.seen
      processed := st.processed + 1
      skipped := st.skipped + 1
      statuses := st.statuses ++
        [⟨loc, target, .failed, .fetchFailed, (attemptFetch env target 0 sitemapWarmMaxAttempts).1, [], []⟩]
      fetchCalls := st.fetchCalls ++
        List.replicate (attemptFetch env target 0 sitemapWarmMaxAttempts).1 (fhost, target) }

/-- One iteration of the per-URL loop of the warm job run: parse failures,
host mismatches and duplicates are recorded as skips (the mismatch record
carrying expected and actual host); fresh upstream targets go through the
retrying fetch step. Every branch counts the URL as processed. -/
def warmStep (bScheme bHost : List Char) (env : WarmEnv) (st : WarmLoopState)
    (loc : List Char) : WarmLoopState :=
  match parseWURL loc with
  | none =>
    { st with
      processed := st.processed + 1
      skipped := st.skipped + 1
      statuses := st.statuses ++ [⟨loc, [], .skipped, .parseError, 0, [], []⟩] }
  | some u0 =>
    if equalFold (warmNormalize bScheme bHost u0).host bHost then
      if warmTarget bScheme bHost u0 ∈ st.seen then
        { st with
          processed := st.processed + 1
          skipped := st.skipped + 1
          statuses := st.statuses ++
            [⟨loc, warmTarget bScheme bHost u0, .skipped, .duplicate, 0, [], []⟩] }
      else
        warmFetchStep env st loc (warmTarget bScheme bHost u0)
          (warmNormalize bScheme bHost u0).host
    else
      { st with
        processed := st.processed + 1
        skipped := st.skipped + 1
        statuses := st.statuses ++
          [⟨loc, urlString (warmNormalize bScheme bHost u0), .skipped, .hostMismatch,
            0, bHost, (warmNormalize bScheme bHost u0).host⟩] }

/-- Terminal states of a warm job run. -/
inductive WarmJobState where
  | completed
  | errored
deriving DecidableEq

/-- Final observable record of a warm job run. -/
structure WarmOutcome where
  state : WarmJobState
  total : Nat
  processed : Nat
  cached : Nat
  skipped : Nat
  statuses : List WarmURLStatus
  fetchCalls : List (List Char × List Char)

/-- The run method of the warm manager, for runs the 72-hour timeout never
interrupts and with the politeness delay elided (neither affects which
records and counters a completed run produces): a collector error marks the
job errored before the total is ever set (total stays 0); otherwise the
total is the collected count, the per-URL loop folds over the list and the
job completes. -/
def runWarmJob (bScheme bHost : List Char) (env : WarmEnv) : WarmOutcome :=
  match env.collect with
  | none => ⟨.errored, 0, 0, 0, 0, [], []⟩
  | some urls =>
    let st := urls.foldl (warmStep bScheme bHost env) ⟨[], 0, 0, 0, [], []⟩
    ⟨.completed, urls.length, st.processed, st.cached, st.skipped,
      st.statuses, st.fetchCalls⟩

lemma equalFold_refl (a : List Char) : equalFold a a = true := by
  simp [equalFold]

lemma warmStep_processed (bS bH : List Char) (env : WarmEnv)
    (st : WarmLoopState) (loc : List Char) :
    (warmStep bS bH env st loc).processed = st.processed + 1 := by
  cases hp : parseWURL loc with
  | none => simp only [warmStep, hp]
  | some u0 =>
    simp only [warmStep, hp]
    by_cases hf : equalFold (warmNormalize bS bH u0).host bH = true
    · rw [if_pos hf]
      by_cases hdup : warmTarget bS bH u0 ∈ st.seen
      · rw [if_pos hdup]
      · rw [if_neg hdup]
        unfold warmFetchStep
        cases hr : (attemptFetch env (warmTarget bS bH u0) 0 sitemapWarmMaxAttempts).2
        · simp only [Bool.false_eq_true, if_false]
        · simp only [eq_self_iff_true, if_true]
    · rw [if_neg hf]

lemma foldl_warmStep_processed (bS bH : List Char) (env : WarmEnv) :
    ∀ (l : List (List Char)) (st : WarmLoopState),
      (l.foldl (warmStep bS bH env) st).processed = st.processed + l.length := by
  intro l
  induction l with
  | nil => intro st; simp
  | cons x xs ih =>
    intro st
    rw [List.foldl_cons, ih, warmStep_processed]
    simp only [List.length_cons]
    omega

/-- Claim C8: a warm job whose collection step errors terminates errored
with total still 0; a job whose per-URL loop runs to the end uninterrupted
terminates completed with processed equal to total, the collected count. -/
theorem C8_warm_job_terminal_states :
    ∀ (bScheme bHost : List Char) (env : WarmEnv),
      (env.collect = none →
        (runWarmJob bScheme bHost env).state = .errored
        ∧ (runWarmJob bScheme bHost env).total = 0)
      ∧ (∀ urls, env.collect = some urls →
        (runWarmJob bScheme bHost env).state = .completed
        ∧ (runWarmJob bScheme bHost env).processed = (runWarmJob bScheme bHost env).total
        ∧ (runWarmJob bScheme bHost env).total = urls.length) := by
  intro bS bH env
  constructor
  · intro h
    simp [runWarmJob, h]
  · intro urls h
    refine ⟨?_, ?_, ?_⟩
    · simp [runWarmJob, h]
    · simp only [runWarmJob, h]
      show (urls.foldl (warmStep bS bH env) ⟨[], 0, 0, 0, [], []⟩).processed = urls.length
      rw [foldl_warmStep_processed]
      simp
    · simp [runWarmJob, h]

lemma warmStep_statuses_extend (bS bH : List Char) (env : WarmEnv)
    (st : WarmLoopState) (loc : List Char) :
    st.statuses <+: (warmStep bS bH env st loc).statuses := by
  cases hp : parseWURL loc with
  | none => simp only [warmStep, hp]; exact ⟨_, rfl⟩
  | some u0 =>
    simp only [warmStep, hp]
    by_cases hf : equalFold (warmNormalize bS bH u0).host bH = true
    · rw [if_pos hf]
      by_cases hdup : warmTarget bS bH u0 ∈ st.seen
      · rw [if_pos hdup]; exact ⟨_, rfl⟩
      · rw [if_neg hdup]
        unfold warmFetchStep
        cases hr : (attemptFetch env (warmTarget bS bH u0) 0 sitemapWarmMaxAttempts).2
        · simp only [Bool.false_eq_true, if_false]; exact ⟨_, rfl⟩
        · simp only [eq_self_iff_true, if_true]; exact ⟨_, rfl⟩
    · rw [if_neg hf]; exact ⟨_, rfl⟩

lemma foldl_warmStep_statuses_extend (bS bH : List Char) (env : WarmEnv) :
    ∀ (l : List (List Char)) (st : WarmLoopState),
      st.statuses <+: (l.foldl (warmStep bS bH env) st).statuses := by
  intro l
  induction l with
  | nil => intro st; exact List.prefix_refl _
  | cons x xs ih =>
    intro st
    rw [List.foldl_cons]
    exact (warmStep_statuses_extend bS bH env st x).trans (ih _)

lemma warmStep_mismatch (bS bH : List Char) (env : WarmEnv) (st : WarmLoopState)
    (loc : List Char) (u0 : WURL) (hp : parseWURL loc = some u0)
    (hh : u0.host ≠ []) (hf : equalFold u0.host bH = false) :
    (warmStep bS bH env st loc).statuses = st.statuses ++
      [⟨loc, urlString u0, .skipped, .hostMismatch, 0, bH, u0.host⟩] := by
  have hn : warmNormalize bS bH u0 = u0 := by simp [warmNormalize, hh]
  have hnf : ¬ (equalFold (warmNormalize bS bH u0).host bH = true) := by
    rw [hn, hf]; simp
  simp only [warmStep, hp]
  rw [if_neg hnf, hn]

lemma warmStep_hostless (bS bH : List Char) (env : WarmEnv) (st : WarmLoopState)
    (loc : List Char) (u0 : WURL) (hp : parseWURL loc = some u0)
    (hh : u0.host = []) :
    ∃ r, (warmStep bS bH env st loc).statuses = st.statuses ++ [r]
      ∧ r.rawURL = loc ∧ r.url = warmTarget bS bH u0
      ∧ r.reason ≠ .hostMismatch ∧ r.reason ≠ .parseError := by
  have hn : (warmNormalize bS bH u0).host = bH := by simp [warmNormalize, hh]
  have hf : equalFold (warmNormalize bS bH u0).host bH = true := by
    rw [hn]; exact equalFold_refl bH
  simp only [warmStep, hp]
  rw [if_pos hf]
  by_cases hdup : warmTarget bS bH u0 ∈ st.seen
  · rw [if_pos hdup]
    exact ⟨⟨loc, warmTarget bS bH u0, .skipped, .duplicate, 0, [], []⟩,
      rfl, rfl, rfl, by simp, by simp⟩
  · rw [if_neg hdup]
    unfold warmFetchStep
    cases hr : (attemptFetch env (warmTarget bS bH u0) 0 sitemapWarmMaxAttempts).2
    · simp only [Bool.false_eq_true, if_false]
      exact ⟨⟨loc, warmTarget bS bH u0, .failed, .fetchFailed,
        (attemptFetch env (warmTarget bS bH u0) 0 sitemapWarmMaxAttempts).1, [], []⟩,
        rfl, rfl, rfl, by simp, by simp⟩
    · simp only [eq_self_iff_true, if_true]
      exact ⟨⟨loc, warmTarget bS bH u0, .cached, .rnone,
        (attemptFetch env (warmTarget bS bH u0) 0 sitemapWarmMaxAttempts).1, [], []⟩,
        rfl, rfl, rfl, by simp, by simp⟩

lemma warmStep_fetchCalls (bS bH : List Char) (env : WarmEnv)
    (st : WarmLoopState) (loc : List Char)
    (hall : ∀ c ∈ st.fetchCalls, equalFold c.1 bH = true) :
    ∀ c ∈ (warmStep bS bH env st loc).fetchCalls, equalFold c.1 bH = true := by
  cases hp : parseWURL loc with
  | none => simp only [warmStep, hp]; exact hall
  | some u0 =>
    simp only [warmStep, hp]
    by_cases hf : equalFold (warmNormalize bS bH u0).host bH = true
    · rw [if_pos hf]
      by_cases hdup : warmTarget bS bH u0 ∈ st.seen
      · rw [if_pos hdup]; exact hall
      · rw [if_neg hdup]
        unfold warmFetchStep
        have hstep : ∀ c ∈ st.fetchCalls ++
            List.replicate (attemptFetch env (warmTarget bS bH u0) 0 sitemapWarmMaxAttempts).1
              ((warmNormalize bS bH u0).host, warmTarget bS bH u0),
            equalFold c.1 bH = true := by
          intro c hc
          rcases List.mem_append.mp hc with h1 | h2
          · exact hall c h1
          · rw [List.eq_of_mem_replicate h2]
            exact hf
        cases hr : (attemptFetch env (warmTarget bS bH u0) 0 sitemapWarmMaxAttempts).2
        · simp only [Bool.false_eq_true, if_false]; exact hstep
        · simp only [eq_self_iff_true, if_true]; exact hstep
    · rw [if_neg hf]; exact hall

lemma foldl_warmStep_fetchCalls (bS bH : List Char) (env : WarmEnv) :
    ∀ (l : List (List Char)) (st : WarmLoopState),
      (∀ c ∈ st.fetchCalls, equalFold c.1 bH = true) →
      ∀ c ∈ (l.foldl (warmStep bS bH env) st).fetchCalls, equalFold c.1 bH = true := by
  intro l
  induction l with
  | nil => intro st h; exact h
  | cons x xs ih =>
    intro st h
    rw [List.foldl_cons]
    exact ih _ (warmStep_fetchCalls bS bH env st x h)

lemma foldl_warmStep_mismatch (bS bH : List Char) (env : WarmEnv) :
    ∀ (l : List (List Char)) (st : WarmLoopState) (loc : List Char) (u0 : WURL),
      loc ∈ l → parseWURL loc = some u0 → u0.host ≠ [] →
      equalFold u0.host bH = false →
      ∃ r, r ∈ (l.foldl (warmStep bS bH env) st).statuses ∧
        r.rawURL = loc ∧ r.status = .skipped ∧ r.reason = .hostMismatch ∧
        r.expectedHost = bH ∧ r.actualHost = u0.host := by
  intro l
  induction l with
  | nil => intro st loc u0 hm; exact absurd hm (List.not_mem_nil _)
  | cons x xs ih =>
    intro st loc u0 hm hp hh hf
    rw [List.foldl_cons]
    rcases List.mem_cons.mp hm with rfl | hmem
    · have hstep := warmStep_mismatch bS bH env st loc u0 hp hh hf
      have hpre := foldl_warmStep_statuses_extend bS bH env xs (warmStep bS bH env st loc)
      refine ⟨⟨loc, urlString u0, .skipped, .hostMismatch, 0, bH, u0.host⟩,
        ?_, rfl, rfl, rfl, rfl, rfl⟩
      apply hpre.subset
      rw [hstep]
      simp
    · exact ih _ loc u0 hmem hp hh hf

lemma foldl_warmStep_hostless (bS bH : List Char) (env : WarmEnv) :
    ∀ (l : List (List Char)) (st : WarmLoopState) (loc : List Char) (u0 : WURL),
      loc ∈ l → parseWURL loc = some u0 → u0.host = [] →
      ∃ r, r ∈ (l.foldl (warmStep bS bH env) st).statuses ∧
        r.rawURL = loc ∧ r.url = warmTarget bS bH u0 ∧
        r.reason ≠ .hostMismatch ∧ r.reason ≠ .parseError := by
  intro l
  induction l with
  | nil => intro st loc u0 hm; exact absurd hm (List.not_mem_nil _)
  | cons x xs ih =>
    intro st loc u0 hm hp hh
    rw [List.foldl_cons]
    rcases List.mem_cons.mp hm with rfl | hmem
    · obtain ⟨r, heq, h1, h2, h3, h4⟩ := warmStep_hostless bS bH env st loc u0 hp hh
      have hpre := foldl_warmStep_statuses_extend bS bH env xs (warmStep bS bH env st loc)
      refine ⟨r, ?_, h1, h2, h3, h4⟩
      apply hpre.subset
      rw [heq]
      simp
    · exact ih _ loc u0 hmem hp hh

/-- Claim C7: in a warm job run every collected URL that parses with a
nonempty host not case-insensitively equal to the upstream host is recorded
as skipped with reason host_mismatch carrying expected and actual host;
every FetchAndStore call the run performs is for a host case-insensitively
equal to the upstream host (so mismatched URLs are never fetched); a
collected URL with no host receives the upstream scheme and host and is then
processed as an upstream URL (its record is never a host mismatch or parse
error and carries the normalized upstream target). -/
theorem C7_warm_host_filtering :
    ∀ (bScheme bHost : List Char) (env : WarmEnv) (urls : List (List Char)),
      env.collect = some urls →
      (∀ (loc : List Char) (u0 : WURL), loc ∈ urls → parseWURL loc = some u0 →
        u0.host ≠ [] → equalFold u0.host bHost = false →
        ∃ r, r ∈ (runWarmJob bScheme bHost env).statuses ∧
          r.rawURL = loc ∧ r.status = .skipped ∧ r.reason = .hostMismatch ∧
          r.expectedHost = bHost ∧ r.actualHost = u0.host)
      ∧ (∀ c ∈ (runWarmJob bScheme bHost env).fetchCalls, equalFold c.1 bHost = true)
      ∧ (∀ (loc : List Char) (u0 : WURL), loc ∈ urls → parseWURL loc = some u0 →
        u0.host = [] →
        ∃ r, r ∈ (runWarmJob bScheme bHost env).statuses ∧
          r.rawURL = loc ∧ r.url = warmTarget bScheme bHost u0 ∧
          r.reason ≠ .hostMismatch ∧ r.reason ≠ .parseError)
      ∧ (∀ u0 : WURL, u0.host = [] →
        warmTarget bScheme bHost u0 =
          urlString ⟨bScheme, bHost, stripFragment u0.tail⟩) := by
  intro bS bH env urls hc
  have hstat : (runWarmJob bS bH env).statuses =
      (urls.foldl (warmStep bS bH env) ⟨[], 0, 0, 0, [], []⟩).statuses := by
    simp [runWarmJob, hc]
  have hcall : (runWarmJob bS bH env).fetchCalls =
      (urls.foldl (warmStep bS bH env) ⟨[], 0, 0, 0, [], []⟩).fetchCalls := by
    simp [runWarmJob, hc]
  refine ⟨?_, ?_, ?_, ?_⟩
  · intro loc u0 hm hp hh hf
    rw [hstat]
    exact foldl_warmStep_mismatch bS bH env urls _ loc u0 hm hp hh hf
  · intro c hcm
    rw [hcall] at hcm
    exact foldl_warmStep_fetchCalls bS bH env urls _ (by intro c hc; cases hc) c hcm
  · intro loc u0 hm hp hh
    rw [hstat]
    exact foldl_warmStep_hostless bS bH env urls _ loc u0 hm hp hh
  · intro u0 hh
    simp [warmTarget, warmNormalize, hh]

/-- Concrete warm environment: one cross-domain URL and one hostless URL,
with a Prefetcher that always succeeds. -/
def warmEnvEx : WarmEnv :=
  ⟨some ["https://evil.example/x".toList, "/rel#f".toList], fun _ _ => true⟩

/-- Concrete warm environment whose collection step errors. -/
def warmEnvErr : WarmEnv := ⟨none, fun _ _ => true⟩

/-- Witness for C7 on the concrete run: the cross-domain URL is recorded as
a host_mismatch skip with both hosts. -/
theorem C7_warm_host_filtering_witness :
    ∃ r, r ∈ (runWarmJob "https".toList "b.example".toList warmEnvEx).statuses ∧
      r.rawURL = "https://evil.example/x".toList ∧ r.status = .skipped ∧
      r.reason = .hostMismatch ∧ r.expectedHost = "b.example".toList ∧
      r.actualHost = "evil.example".toList :=
  (C7_warm_host_filtering "https".toList "b.example".toList warmEnvEx
      ["https://evil.example/x".toList, "/rel#f".toList] rfl).1
    "https://evil.example/x".toList
    ⟨"https".toList, "evil.example".toList, "/x".toList⟩
    (by decide) (by decide) (by decide) (by decide)

/-- Witness for C8: the erroring collector yields an errored job with total
zero; the two-URL run completes with processed equal to total. -/
theorem C8_warm_job_terminal_states_witness :
    (runWarmJob "https".toList "b.example".toList warmEnvErr).state = .errored
    ∧ (runWarmJob "https".toList "b.example".toList warmEnvErr).total = 0
    ∧ (runWarmJob "https".toList "b.example".toList warmEnvEx).state = .completed
    ∧ (runWarmJob "https".toList "b.example".toList warmEnvEx).processed =
      (runWarmJob "https".toList "b.example".toList warmEnvEx).total := by
  have h1 := (C8_warm_job_terminal_states "https".toList "b.example".toList warmEnvErr).1 rfl
  have h2 := (C8_warm_job_terminal_states "https".toList "b.example".toList warmEnvEx).2
    ["https://evil.example/x".toList, "/rel#f".toList] rfl
  exact ⟨h1.1, h1.2, h2.1, h2.2.1⟩
